import Mathlib

/-!
Verification of the fcc-schematics exhibit downloader.

The program is a single linear pipeline: scan a root page for exhibit
links marked "Adobe Acrobat PDF", resolve the concrete PDF URL on each
exhibit page, and download each unique PDF with a collision-safe name.

Documents are modelled as flattened sequences of DOM nodes in document
order (the design the specification itself prescribes for the bounded
lookahead); each tag node carries its name, attributes and rendered
text.  URL resolution (urljoin) and Unicode NFKD normalisation are
library services supplied by the host runtime and appear as explicit
function parameters; everything else is translated from the source.
-/

namespace FCC

/-- Hard-coded root URL of the target filing (START_URL in the source). -/
def START_URL : String := "https://fccid.io/BCG-E8726A"

/-- Hard-coded output directory (OUTDIR in the source). -/
def OUTDIR : String := "fcc_exhibits"

/-- The whitespace characters of Python's str.isspace, which also back
str.strip() and the regex whitespace class for text strings. -/
def isPySpace (c : Char) : Bool :=
  c == ' ' || c == '\t' || c == '\n' || c == '\r' || c == '\x0b' ||
  c == '\x0c' || c == '\x1c' || c == '\x1d' || c == '\x1e' || c == '\x1f' ||
  c.toNat == 0x85 || c.toNat == 0xa0 || c.toNat == 0x1680 ||
  (0x2000 ≤ c.toNat && c.toNat ≤ 0x200a) ||
  c.toNat == 0x2028 || c.toNat == 0x2029 || c.toNat == 0x202f ||
  c.toNat == 0x205f || c.toNat == 0x3000

/-- ASCII lowering, the effect of str.lower() on the ASCII strings this
program matches against. -/
def lowerL (cs : List Char) : List Char := cs.map Char.toLower

/-- Substring containment on character lists (Python's `in` on str). -/
def containsSub (pat : List Char) : List Char → Bool
  | [] => pat.isPrefixOf []
  | c :: rest => pat.isPrefixOf (c :: rest) || containsSub pat rest

/-- Substring containment at the string level. -/
def strContains (s pat : String) : Bool := containsSub pat.toList s.toList

/-- Suffix test on character lists. -/
def endsWithL (pat cs : List Char) : Bool :=
  cs.drop (cs.length - pat.length) == pat

/-- Python str.rstrip("/"). -/
def rstripSlash (s : String) : String :=
  String.mk ((s.toList.reverse.dropWhile (fun c => c == '/')).reverse)

/-- Python str.strip() with no argument. -/
def pyStrip (s : String) : String :=
  String.mk (((s.toList.dropWhile isPySpace).reverse.dropWhile isPySpace).reverse)

/-- A DOM node in the flattened document sequence: a tag carrying its
name, its attributes and its rendered text, or a bare string node. -/
inductive Node where
  | tag (name : String) (attrs : List (String × String)) (text : String)
  | str (s : String)
deriving DecidableEq

/-- Attribute lookup on a tag (BeautifulSoup's tag["href"] / tag.get). -/
def lookupAttr (attrs : List (String × String)) (key : String) : Option String :=
  match attrs with
  | [] => none
  | (k, v) :: rest => if k == key then some v else lookupAttr rest key

/-- The node texts gathered by the bounded lookahead of
nearby_text_contains_pdf_marker: walk the nodes that follow the anchor
in document order, consuming one unit of the window per node and
stopping at the first anchor tag. -/
def lookaheadTexts : Nat → List Node → List String
  | 0, _ => []
  | _, [] => []
  | w + 1, n :: rest =>
    match n with
    | .tag name _ text =>
      if name == "a" then [] else text :: lookaheadTexts w rest
    | .str s => s :: lookaheadTexts w rest

/-- nearby_text_contains_pdf_marker from the source, with its default
window of 12 nodes: the texts of the lookahead window, joined by single
spaces and lowercased, must contain the marker phrase. -/
def nearby_text_contains_pdf_marker (rest : List Node) : Bool :=
  containsSub "adobe acrobat pdf".toList
    (lowerL (String.intercalate " " (lookaheadTexts 12 rest)).toList)

/-- The title computed for an anchor in main: its text, stripped, with
the literal "exhibit" substituted when the strip leaves nothing. -/
def anchorTitle (text : String) : String :=
  if pyStrip text == "" then "exhibit" else pyStrip text

/-- The link-scanning loop of main.  For every anchor carrying an href,
resolve it (resolve stands for urljoin against START_URL), and keep the
pair (resolved URL, title) when the resolved URL contains the filing
namespace, differs from the root URL once trailing slashes are
stripped, and the bounded marker lookahead over the following nodes
succeeds. -/
def collectExhibitPages (resolve : String → String) : List Node → List (String × String)
  | [] => []
  | n :: rest =>
    (match n with
     | .tag name attrs text =>
       if name == "a" then
         match lookupAttr attrs "href" with
         | some h =>
           if strContains (resolve h) "/BCG-E8726A/" = true ∧
              rstripSlash (resolve h) ≠ rstripSlash START_URL ∧
              nearby_text_contains_pdf_marker rest = true then
             [(resolve h, anchorTitle text)]
           else []
         | none => []
       else []
     | .str _ => []) ++ collectExhibitPages resolve rest

/-- The de-duplication loop of main: keep the first pair seen for each
URL, preserving order; seen is the run-scoped set of URLs. -/
def dedupPages (seen : List String) : List (String × String) → List (String × String)
  | [] => []
  | (u, t) :: rest =>
    if u ∈ seen then dedupPages seen rest
    else (u, t) :: dedupPages (u :: seen) rest

example : rstripSlash "https://fccid.io/BCG-E8726A/" = "https://fccid.io/BCG-E8726A" := by decide
example : nearby_text_contains_pdf_marker [Node.str "Adobe Acrobat PDF"] = true := by decide
example : anchorTitle "  Exhibit 1 " = "Exhibit 1" := by decide

/-! ### The PDF resolver (pick_pdf_from_exhibit) -/

/-- Rule-1 predicate: the href ends in ".pdf", case-insensitively. -/
def hrefEndsPdf (h : String) : Bool := endsWithL ".pdf".toList (lowerL h.toList)

/-- Rule-2 predicate: the href contains "download", case-insensitively. -/
def hrefHasDownload (h : String) : Bool :=
  containsSub "download".toList (lowerL h.toList)

/-- Rule-3 predicate on an iframe/embed src. -/
def frameSrcOk (s : String) : Bool :=
  endsWithL ".pdf".toList (lowerL s.toList) ||
  containsSub "download".toList (lowerL s.toList)

/-- soup.find("a", href=p): the first anchor href in document order
satisfying p (anchors without an href never match, since the filter
receives a missing value). -/
def findAnchorHref (p : String → Bool) : List Node → Option String
  | [] => none
  | .tag name attrs _ :: rest =>
    if name == "a" then
      match lookupAttr attrs "href" with
      | some h => if p h then some h else findAnchorHref p rest
      | none => findAnchorHref p rest
    else findAnchorHref p rest
  | .str _ :: rest => findAnchorHref p rest

/-- The iframe/embed scan of rule 3: the first such element whose src
looks like a pdf or a download route. -/
def findFrameSrc : List Node → Option String
  | [] => none
  | .tag name attrs _ :: rest =>
    if name == "iframe" || name == "embed" then
      match lookupAttr attrs "src" with
      | some s => if frameSrcOk s then some s else findFrameSrc rest
      | none => findFrameSrc rest
    else findFrameSrc rest
  | .str _ :: rest => findFrameSrc rest

/-- pick_pdf_from_exhibit from the source; join stands for urljoin
against the exhibit page's own URL. -/
def pick_pdf_from_exhibit (join : String → String) (doc : List Node) : Option String :=
  match findAnchorHref hrefEndsPdf doc with
  | some h => some (join h)
  | none =>
    match findAnchorHref hrefHasDownload doc with
    | some h => some (join h)
    | none =>
      match findFrameSrc doc with
      | some s => some (join s)
      | none => none

/-- All anchor hrefs of a document, in document order. -/
def anchorHrefs (doc : List Node) : List String :=
  doc.filterMap fun n =>
    match n with
    | .tag name attrs _ => if name == "a" then lookupAttr attrs "href" else none
    | .str _ => none

/-- All iframe/embed src attributes of a document, in document order. -/
def frameSrcs (doc : List Node) : List String :=
  doc.filterMap fun n =>
    match n with
    | .tag name attrs _ =>
      if name == "iframe" || name == "embed" then lookupAttr attrs "src" else none
    | .str _ => none

/-- Modelled from the spec's wording of the resolver contract: the first
anchor href ending in ".pdf"; failing that, the first anchor href
containing "download"; failing that, the first iframe/embed src that
ends in ".pdf" or contains "download"; each resolved against the
exhibit page's URL; otherwise a null result. -/
def pick_pdf_priority_spec (join : String → String) (doc : List Node) : Option String :=
  match ((anchorHrefs doc).filter hrefEndsPdf).head? with
  | some h => some (join h)
  | none =>
    match ((anchorHrefs doc).filter hrefHasDownload).head? with
    | some h => some (join h)
    | none => (((frameSrcs doc).filter frameSrcOk).head?).map join

/-! ### Filename derivation (slugify, extract_doc_id, download naming) -/

/-- Python regex word characters over the ASCII range. -/
def isPyWord (c : Char) : Bool := c.isAlphanum || c == '_'

/-- Collapse each maximal whitespace run to one underscore (the
re.sub of a whitespace-run pattern with "_"); the flag records whether
the previous character was part of a whitespace run. -/
def collapseWs : List Char → Bool → List Char
  | [], _ => []
  | c :: rest, inRun =>
    if isPySpace c then
      (if inRun then [] else ['_']) ++ collapseWs rest true
    else c :: collapseWs rest false

/-- slugify before the empty fallback and truncation: NFKD (the
normalize parameter), the ASCII "ignore" encode, the character
whitelist of word characters, whitespace, dot and hyphen, a strip, and
the whitespace collapse. -/
def slugCore (normalize : String → String) (s : String) : List Char :=
  let ascii := (normalize s).toList.filter fun c => c.toNat < 128
  let kept := ascii.filter fun c => isPyWord c || isPySpace c || c == '.' || c == '-'
  let stripped := ((kept.dropWhile isPySpace).reverse.dropWhile isPySpace).reverse
  collapseWs stripped false

/-- slugify from the source with its default maxlen of 140. -/
def slugify (normalize : String → String) (s : String) : String :=
  String.mk ((if slugCore normalize s = [] then "exhibit".toList
              else slugCore normalize s).take 140)

example : slugify id "Exhibit #1: RF Test/Report" = "Exhibit_1_RF_TestReport" := by decide
example : slugify id "  " = "exhibit" := by decide

/-- The character list ['.', 'p', 'd', 'f']. -/
def pdfExt : List Char := ['.', 'p', 'd', 'f']

/-- The string an end-anchored Python regex search actually matches
against: the input, less one final newline if present. -/
def docIdBase (cs : List Char) : List Char :=
  if cs.getLast? = some '\n' then cs.dropLast else cs

/-- The characters before the final four (the ".pdf" suffix). -/
def stemBeforePdf (base : List Char) : List Char := base.take (base.length - 4)

/-- The maximal digit run at the end of the stem before ".pdf". -/
def docIdRun (base : List Char) : List Char :=
  (stemBeforePdf base).reverse.takeWhile Char.isDigit

/-- Models a search for the anchored pattern of DOCID_RE, a hyphen
followed by digits followed by a case-insensitive ".pdf" at the end of
the string: the maximal digit run immediately preceding the final
".pdf" is returned when it is nonempty and preceded by a hyphen.
Python's end anchor may also match just before one final newline. -/
def docIdNearPdf (cs : List Char) : Option (List Char) :=
  if endsWithL pdfExt (lowerL (docIdBase cs)) = true then
    if docIdRun (docIdBase cs) ≠ [] ∧
       ((stemBeforePdf (docIdBase cs)).reverse.drop
           (docIdRun (docIdBase cs)).length).head? = some '-' then
      some (docIdRun (docIdBase cs)).reverse
    else none
  else none

/-- Models a search for a digits-at-the-end pattern: the maximal digit
run at the end of the string (or just before one final newline), when
nonempty. -/
def trailingDigitRun (cs : List Char) : Option (List Char) :=
  let base := if cs.getLast? = some '\n' then cs.dropLast else cs
  let run := (base.reverse.takeWhile Char.isDigit).reverse
  if run = [] then none else some run

/-! urllib.parse.urlparse, modelled for the single component this
program reads (.path): the WHATWG prefilter, scheme and netloc
splitting, fragment, query and params removal. -/

/-- urlsplit's prefilter: strip leading C0 controls and space, then
remove every tab, carriage return and line feed. -/
def urlPrefilter (cs : List Char) : List Char :=
  (cs.dropWhile fun c => c.toNat ≤ 32).filter
    fun c => !(c == '\t' || c == '\r' || c == '\n')

/-- Characters allowed in a URL scheme. -/
def schemeChar (c : Char) : Bool :=
  c.isAlphanum || c == '+' || c == '-' || c == '.'

/-- urlsplit's scheme removal: (lowercased scheme, remainder). -/
def splitScheme (cs : List Char) : List Char × List Char :=
  match cs.findIdx? (fun c => c == ':') with
  | some i =>
    if 0 < i ∧ (cs.headD ' ').isAlpha = true ∧ (cs.take i).all schemeChar = true then
      (lowerL (cs.take i), cs.drop (i + 1))
    else ([], cs)
  | none => ([], cs)

/-- urlsplit's netloc removal: after a leading "//", everything up to
the next slash, question mark or hash is the netloc; the rest is kept. -/
def afterNetloc (cs : List Char) : List Char :=
  match cs with
  | '/' :: '/' :: rest =>
    match rest.findIdx? (fun c => c == '/' || c == '?' || c == '#') with
    | some j => rest.drop j
    | none => []
  | _ => cs

/-- Cut the list at the first occurrence of the marker character. -/
def dropFrom (mark : Char) (cs : List Char) : List Char :=
  match cs.findIdx? (fun c => c == mark) with
  | some i => cs.take i
  | none => cs

/-- Index of the last occurrence of a character. -/
def lastIdxOf (c : Char) (cs : List Char) : Option Nat :=
  match cs.reverse.findIdx? (fun x => x == c) with
  | some k => some (cs.length - 1 - k)
  | none => none

/-- The schemes for which urlparse separates ";params" from the path. -/
def uses_params : List String :=
  ["", "ftp", "hdl", "prospero", "http", "imap", "https", "shttp", "rtsp",
   "rtspu", "sip", "sips", "mms", "sftp", "tel"]

/-- urlparse's _splitparams: drop everything from the first semicolon of
the last path segment. -/
def splitParamsPath (path : List Char) : List Char :=
  if path.contains '/' then
    match lastIdxOf '/' path with
    | some s =>
      match (path.drop s).findIdx? (fun c => c == ';') with
      | some k => path.take (s + k)
      | none => path
    | none => path
  else
    match path.findIdx? (fun c => c == ';') with
    | some k => path.take k
    | none => path

/-- The .path component of urlparse on a URL string. -/
def urlparse_path (url : String) : String :=
  let cs := urlPrefilter url.toList
  let sp := splitScheme cs
  let path := dropFrom '?' (dropFrom '#' (afterNetloc sp.2))
  let path :=
    if String.mk sp.1 ∈ uses_params ∧ path.contains ';' then splitParamsPath path
    else path
  String.mk path

/-- os.path.basename on a POSIX path. -/
def basenameL (cs : List Char) : List Char :=
  match lastIdxOf '/' cs with
  | some i => cs.drop (i + 1)
  | none => cs

/-- The root part of os.path.splitext: cut at the final dot, unless
every character of the final segment before that dot is itself a dot. -/
def splitextRoot (cs : List Char) : List Char :=
  let start := match lastIdxOf '/' cs with
    | some i => i + 1
    | none => 0
  match lastIdxOf '.' cs with
  | some d =>
    if start ≤ d ∧ ((cs.drop start).take (d - start)).any (fun c => c != '.') = true then
      cs.take d
    else cs
  | none => cs

/-- extract_doc_id from the source: the DOCID_RE search first, then the
fallback on the trailing digits of the URL path's basename with its
extension stripped, then the empty string. -/
def extract_doc_id (pdf_url : String) : String :=
  match docIdNearPdf pdf_url.toList with
  | some run => String.mk run
  | none =>
    let path := urlparse_path pdf_url
    let base := basenameL path.toList
    let base_noext := splitextRoot base
    match trailingDigitRun base_noext with
    | some run => String.mk run
    | none => ""

example : extract_doc_id "https://fccid.io/x/foo-8024702.pdf" = "8024702" := by decide
example : extract_doc_id "https://fccid.io/x/foo.pdf" = "" := by decide
example : extract_doc_id "https://x.io/a/b123.pdf?dl=1" = "123" := by decide
example : urlparse_path "https://x.io/a/b.pdf;v=2?q#f" = "/a/b.pdf" := by decide

/-! ### The downloader and the per-exhibit loop of main -/

/-- The filename built in download: the title slug, an optional
"_docid" salt, and the literal ".pdf" extension. -/
def downloadFilename (normalize : String → String) (pdf_url base_title : String) : String :=
  let docid := extract_doc_id pdf_url
  let title_slug := slugify normalize base_title
  (title_slug ++ (if docid = "" then "" else "_" ++ docid)) ++ ".pdf"

/-- os.path.join(OUTDIR, fname) for the names this program builds. -/
def outPath (normalize : String → String) (pdf_url base_title : String) : String :=
  OUTDIR ++ "/" ++ downloadFilename normalize pdf_url base_title

/-- The observable outcome of the HEAD probe issued by remote_size: a
transport-level exception, or a response carrying a status code and an
optional Content-Length header. -/
inductive HeadResult where
  | exn
  | resp (status : Nat) (contentLength : Option String)
deriving DecidableEq

/-- Decimal parsing of a digit string (Python's int on a digit str). -/
def natOfDigits (cs : List Char) : Nat :=
  cs.foldl (fun n c => n * 10 + (c.toNat - 48)) 0

/-- remote_size from the source.  The try block swallows every request
exception; a size is produced exactly when the status lies in
[200, 400) and the Content-Length header is a nonempty digit string. -/
def remote_size (h : HeadResult) : Option Nat :=
  match h with
  | .exn => none
  | .resp status cl =>
    if 200 ≤ status ∧ status < 400 then
      match cl with
      | some s =>
        if s.toList ≠ [] ∧ s.toList.all Char.isDigit = true then
          some (natOfDigits s.toList)
        else none
      | none => none
    else none

/-- The error kinds the per-exhibit loop can see: an HTTP-status error
(requests.HTTPError), a transport failure, or any other exception. -/
inductive Err where
  | http (status : Nat)
  | transport (msg : String)
  | other (msg : String)
deriving DecidableEq

/-- Everything one run observes from the outside world: the NFKD
normalizer, the parsed fetch results, urljoin, the HEAD probe, the
local filesystem, and the streamed GET transfer (returning the byte
count it wrote, or the exception it raised). -/
structure World where
  normalize : String → String
  rootFetch : Except Err (List Node)
  fetchEx : String → Except Err (List Node)
  join : String → String → String
  headResult : String → HeadResult
  fexists : String → Bool
  fsize : String → Nat
  transfer : String → Except Err Nat

/-- What one call to download did: skipped the transfer, streamed and
atomically renamed a file of the given size, or raised. -/
inductive DlOutcome where
  | skipped
  | saved (bytes : Nat)
  | failed (e : Err)
deriving DecidableEq

/-- The body of download: build the output path, probe the remote size,
skip when a local file of exactly the probed size already sits at the
path, and otherwise stream the transfer. -/
def downloadRun (w : World) (pdf_url base_title : String) : DlOutcome :=
  if w.fexists (outPath w.normalize pdf_url base_title) = true ∧
     remote_size (w.headResult pdf_url) =
       some (w.fsize (outPath w.normalize pdf_url base_title)) then
    .skipped
  else
    match w.transfer pdf_url with
    | .ok n => .saved n
    | .error e => .failed e

/-- One console line of the per-exhibit loop. -/
inductive Event where
  | noPdf (exUrl : String)
  | dupPdf (pdfUrl : String)
  | dlSkipped (pdfUrl : String)
  | dlSaved (pdfUrl : String)
  | httpError (exUrl : String)
  | genericError (exUrl : String)
deriving DecidableEq

/-- One iteration of the per-exhibit loop in main, covering the whole
try/except body: fetch the exhibit page, resolve its PDF, de-duplicate
against the seen set (which grows before download is invoked, so a
failed download is not retried), and run download.  Returns the new
seen set, the logged event, and the URLs on which download was invoked
(empty or a singleton). -/
def stepExhibit (w : World) (seen : List String) (item : String × String) :
    List String × Event × List String :=
  match w.fetchEx item.1 with
  | .error (.http _) => (seen, .httpError item.1, [])
  | .error _ => (seen, .genericError item.1, [])
  | .ok doc =>
    match pick_pdf_from_exhibit (w.join item.1) doc with
    | none => (seen, .noPdf item.1, [])
    | some pdf =>
      if pdf ∈ seen then (seen, .dupPdf pdf, [])
      else
        match downloadRun w pdf item.2 with
        | .skipped => (pdf :: seen, .dlSkipped pdf, [pdf])
        | .saved _ => (pdf :: seen, .dlSaved pdf, [pdf])
        | .failed (.http _) => (pdf :: seen, .httpError item.1, [pdf])
        | .failed _ => (pdf :: seen, .genericError item.1, [pdf])

/-- The per-exhibit loop of main: thread the seen set through the
items, collecting the event log and the download invocations. -/
def runLoop (w : World) : List String → List (String × String) →
    List String × List Event × List String
  | seen, [] => (seen, [], [])
  | seen, item :: rest =>
    ((runLoop w (stepExhibit w seen item).1 rest).1,
     (stepExhibit w seen item).2.1 ::
       (runLoop w (stepExhibit w seen item).1 rest).2.1,
     (stepExhibit w seen item).2.2 ++
       (runLoop w (stepExhibit w seen item).1 rest).2.2)

/-- The exhibit pages main iterates over: the scan of the root page,
de-duplicated by URL with first-seen order preserved. -/
def exhibitPages (w : World) (doc : List Node) : List (String × String) :=
  dedupPages [] (collectExhibitPages (w.join START_URL) doc)

/-- main: fetch the root page (a failure there propagates uncaught),
then scan, de-duplicate and run the per-exhibit loop, which always
runs to completion. -/
def mainRun (w : World) : Except Err (List Event × List String) :=
  match w.rootFetch with
  | .error e => .error e
  | .ok doc =>
    .ok ((runLoop w [] (exhibitPages w doc)).2.1,
         (runLoop w [] (exhibitPages w doc)).2.2)

/-! ### Helper lemmas -/

theorem findAnchorHref_eq (p : String → Bool) :
    ∀ doc : List Node, findAnchorHref p doc = ((anchorHrefs doc).filter p).head?
  | [] => rfl
  | Node.tag name attrs text :: rest => by
    have ih := findAnchorHref_eq p rest
    by_cases h : name = "a"
    · subst h
      cases hl : lookupAttr attrs "href" with
      | none => simp [findAnchorHref, anchorHrefs, hl, ih]
      | some v =>
        by_cases hp : p v = true
        · simp [findAnchorHref, anchorHrefs, hl, hp]
        · simp [findAnchorHref, anchorHrefs, hl, hp, ih]
    · simp [findAnchorHref, anchorHrefs, h, ih]
  | Node.str s :: rest => by
    have ih := findAnchorHref_eq p rest
    simp [findAnchorHref, anchorHrefs, ih]

theorem findFrameSrc_eq :
    ∀ doc : List Node, findFrameSrc doc = ((frameSrcs doc).filter frameSrcOk).head?
  | [] => rfl
  | Node.tag name attrs text :: rest => by
    have ih := findFrameSrc_eq rest
    by_cases h : name = "iframe" ∨ name = "embed"
    · cases hl : lookupAttr attrs "src" with
      | none => simp [findFrameSrc, frameSrcs, h, hl, ih]
      | some v =>
        by_cases hp : frameSrcOk v = true
        · simp [findFrameSrc, frameSrcs, h, hl, hp]
        · simp [findFrameSrc, frameSrcs, h, hl, hp, ih]
    · rw [not_or] at h
      simp [findFrameSrc, frameSrcs, h.1, h.2, ih]
  | Node.str s :: rest => by
    have ih := findFrameSrc_eq rest
    simp [findFrameSrc, frameSrcs, ih]

/-! ### Demonstration worlds used by the concrete witnesses -/

/-- A world in which a local file of exactly the probed size exists. -/
def wSkip : World where
  normalize := id
  rootFetch := Except.ok []
  fetchEx := fun _ => Except.ok []
  join := fun _ h => h
  headResult := fun _ => HeadResult.resp 200 (some "100")
  fexists := fun _ => true
  fsize := fun _ => 100
  transfer := fun _ => Except.ok 7

/-- A world in which the HEAD probe raises a transport exception. -/
def wExn : World where
  normalize := id
  rootFetch := Except.ok []
  fetchEx := fun _ => Except.ok []
  join := fun _ h => h
  headResult := fun _ => HeadResult.exn
  fexists := fun _ => true
  fsize := fun _ => 100
  transfer := fun _ => Except.ok 7

/-! ### Claim theorems -/

/-- C2: for every exhibit page's markup, the resolver returns the first
match of the strict priority order — first anchor href ending in ".pdf"
(case-insensitive), else first anchor href containing "download", else
first iframe/embed src that ends in ".pdf" or contains "download" —
resolved against the exhibit page's URL, and a null result when no rule
matches; so a direct .pdf anchor always beats a "download" anchor. -/
theorem c2_pdf_priority (join : String → String) (doc : List Node) :
    pick_pdf_from_exhibit join doc = pick_pdf_priority_spec join doc := by
  unfold pick_pdf_from_exhibit pick_pdf_priority_spec
  rw [findAnchorHref_eq, findAnchorHref_eq, findFrameSrc_eq]
  cases ((anchorHrefs doc).filter hrefEndsPdf).head? <;>
    cases ((anchorHrefs doc).filter hrefHasDownload).head? <;>
      cases ((frameSrcs doc).filter frameSrcOk).head? <;> rfl

/-- C3: the downloader skips the transfer (issuing no GET) exactly when
a file exists at the computed output path and its size equals the size
probed by HEAD; and whether it skips does not depend on the transfer
oracle at all, so a re-run in an identical filesystem/HEAD state again
performs no transfer. -/
theorem c3_skip_iff :
    (∀ (w : World) (url title : String),
        downloadRun w url title = DlOutcome.skipped ↔
          w.fexists (outPath w.normalize url title) = true ∧
            remote_size (w.headResult url) =
              some (w.fsize (outPath w.normalize url title)))
    ∧ ∀ w w' : World, ∀ url title : String,
        w.normalize = w'.normalize → w.headResult = w'.headResult →
        w.fexists = w'.fexists → w.fsize = w'.fsize →
        downloadRun w url title = DlOutcome.skipped →
        downloadRun w' url title = DlOutcome.skipped := by
  have hiff : ∀ (w : World) (url title : String),
      downloadRun w url title = DlOutcome.skipped ↔
        w.fexists (outPath w.normalize url title) = true ∧
          remote_size (w.headResult url) =
            some (w.fsize (outPath w.normalize url title)) := by
    intro w url title
    by_cases hcond : w.fexists (outPath w.normalize url title) = true ∧
        remote_size (w.headResult url) =
          some (w.fsize (outPath w.normalize url title))
    · unfold downloadRun
      rw [if_pos hcond]
      exact iff_of_true rfl hcond
    · unfold downloadRun
      rw [if_neg hcond]
      refine iff_of_false ?_ hcond
      rcases htr : w.transfer url with e | n <;> simp [htr]
  refine ⟨hiff, ?_⟩
  intro w w' url title h1 h2 h3 h4 hskip
  refine (hiff w' url title).mpr ?_
  have h := (hiff w url title).mp hskip
  rw [← h1, ← h2, ← h3, ← h4]
  exact h

theorem c3_witness : downloadRun wSkip "https://x.io/a.pdf" "t" = DlOutcome.skipped :=
  (c3_skip_iff.1 wSkip "https://x.io/a.pdf" "t").mpr ⟨rfl, by decide⟩

/-- C4, counterexample to the claim as stated: the resolved URL's path
ends in ".png", yet the produced filename carries the literal ".pdf"
extension, not ".png". -/
theorem c4_counterexample :
    downloadFilename id "https://host/files/scan.png" "doc" = "doc.pdf" ∧
      endsWithL ".png".toList
        (downloadFilename id "https://host/files/scan.png" "doc").toList = false := by
  constructor <;> decide

/-- C4 as amended: the downloaded file's extension is always the
literal ".pdf", regardless of the extension of the resolved URL's
path. -/
theorem c4_extension_always_pdf (normalize : String → String) (url title : String) :
    ∃ stem, downloadFilename normalize url title = stem ++ ".pdf" :=
  ⟨slugify normalize title ++
     (if extract_doc_id url = "" then "" else "_" ++ extract_doc_id url), rfl⟩

/-- C10: the remote-size probe is a total function of the HEAD result
(a transport exception yields None rather than propagating), it returns
a size exactly when the status is in [200, 400) and the Content-Length
header is a nonempty digit string, and whenever it yields None the
downloader goes on to the full transfer — for every world, including
those where a local file of the same name exists. -/
theorem c10_remote_size_total :
    (∀ (h : HeadResult) (n : Nat),
        remote_size h = some n ↔
          ∃ st s, h = HeadResult.resp st (some s) ∧ 200 ≤ st ∧ st < 400 ∧
            s.toList ≠ [] ∧ s.toList.all Char.isDigit = true ∧
            n = natOfDigits s.toList)
    ∧ ∀ (w : World) (url title : String),
        remote_size (w.headResult url) = none →
          downloadRun w url title =
            (match w.transfer url with
             | Except.ok n => DlOutcome.saved n
             | Except.error e => DlOutcome.failed e) := by
  constructor
  · intro h n
    cases h with
    | exn =>
      constructor
      · intro hsome; cases hsome
      · rintro ⟨st', s', hresp, -⟩; cases hresp
    | resp st cl =>
      cases cl with
      | none =>
        constructor
        · intro hsome
          simp only [remote_size] at hsome
          rcases Decidable.em (200 ≤ st ∧ st < 400) with hst | hst
          · rw [if_pos hst] at hsome; cases hsome
          · rw [if_neg hst] at hsome; cases hsome
        · rintro ⟨st', s', hresp, -⟩
          cases hresp
      | some s =>
        by_cases hst : 200 ≤ st ∧ st < 400
        · by_cases hdig : s.toList ≠ [] ∧ s.toList.all Char.isDigit = true
          · simp only [remote_size]
            rw [if_pos hst, if_pos hdig]
            constructor
            · intro hsome
              have hn : natOfDigits s.toList = n := by cases hsome; rfl
              exact ⟨st, s, rfl, hst.1, hst.2, hdig.1, hdig.2, hn.symm⟩
            · rintro ⟨st', s', hresp, -, -, -, -, hn⟩
              cases hresp
              rw [hn]
          · simp only [remote_size]
            rw [if_pos hst, if_neg hdig]
            constructor
            · intro hsome; cases hsome
            · rintro ⟨st', s', hresp, -, -, hne, hall, -⟩
              cases hresp
              exact (hdig ⟨hne, hall⟩).elim
        · simp only [remote_size]
          rw [if_neg hst]
          constructor
          · intro hsome; cases hsome
          · rintro ⟨st', s', hresp, h1, h2, -⟩
            cases hresp
            exact (hst ⟨h1, h2⟩).elim
  · intro w url title hnone
    unfold downloadRun
    rw [if_neg]
    rintro ⟨-, hsz⟩
    rw [hnone] at hsz
    cases hsz

theorem c10_witness : downloadRun wExn "u" "t" = DlOutcome.saved 7 := by
  have h := c10_remote_size_total.2 wExn "u" "t" rfl
  exact h.trans rfl

/-- A concrete resolver standing in for urljoin against the root URL. -/
def demoResolve : String → String := fun h => "https://fccid.io" ++ h

/-- C1: the complete per-anchor characterisation of the link scanner.
An anchor head with an href contributes its (resolved URL, title) pair
exactly when the resolved URL contains the filing namespace, differs
from the root URL up to trailing slashes, and the 12-node
anchor-terminated lookahead behind it contains the marker phrase; any
other head node contributes nothing; the empty document scans to
nothing. -/
theorem c1_scanner_iff (resolve : String → String) :
    (∀ (rest : List Node) (attrs : List (String × String)) (text h : String),
        lookupAttr attrs "href" = some h →
          collectExhibitPages resolve (Node.tag "a" attrs text :: rest) =
            (if strContains (resolve h) "/BCG-E8726A/" = true ∧
                rstripSlash (resolve h) ≠ rstripSlash START_URL ∧
                nearby_text_contains_pdf_marker rest = true then
               [(resolve h, anchorTitle text)]
             else []) ++ collectExhibitPages resolve rest)
    ∧ (∀ (n : Node) (rest : List Node),
        (match n with
         | Node.tag name attrs _ => name ≠ "a" ∨ lookupAttr attrs "href" = none
         | Node.str _ => True) →
          collectExhibitPages resolve (n :: rest) = collectExhibitPages resolve rest)
    ∧ collectExhibitPages resolve [] = [] := by
  refine ⟨?_, ?_, rfl⟩
  · intro rest attrs text h hh
    simp [collectExhibitPages, hh]
  · intro n rest hn
    cases n with
    | str s => simp [collectExhibitPages]
    | tag name attrs text =>
      rcases hn with hname | hnone
      · simp [collectExhibitPages, hname]
      · simp [collectExhibitPages, hnone]

theorem c1_witness :
    collectExhibitPages demoResolve
        (Node.tag "a" [("href", "/BCG-E8726A/ex1")] "Exhibit 1" ::
          [Node.str "Adobe Acrobat PDF"]) =
      (if strContains (demoResolve "/BCG-E8726A/ex1") "/BCG-E8726A/" = true ∧
          rstripSlash (demoResolve "/BCG-E8726A/ex1") ≠ rstripSlash START_URL ∧
          nearby_text_contains_pdf_marker [Node.str "Adobe Acrobat PDF"] = true then
         [(demoResolve "/BCG-E8726A/ex1", anchorTitle "Exhibit 1")]
       else []) ++ collectExhibitPages demoResolve [Node.str "Adobe Acrobat PDF"] :=
  (c1_scanner_iff demoResolve).1 [Node.str "Adobe Acrobat PDF"]
    [("href", "/BCG-E8726A/ex1")] "Exhibit 1" "/BCG-E8726A/ex1" rfl

/-- Membership in the de-duplicated list is exactly being the first
occurrence of one's URL, relative to the URLs already seen. -/
theorem mem_dedupPages :
    ∀ (pairs : List (String × String)) (seen : List String) (u t : String),
      (u, t) ∈ dedupPages seen pairs ↔
        u ∉ seen ∧ ∃ pre post, pairs = pre ++ (u, t) :: post ∧ ∀ q ∈ pre, q.1 ≠ u
  | [], seen, u, t => by
    simp only [dedupPages, List.not_mem_nil, false_iff]
    rintro ⟨-, pre, post, habs, -⟩
    cases pre <;> simp at habs
  | (v, s) :: rest, seen, u, t => by
    by_cases hv : v ∈ seen
    · simp only [dedupPages, if_pos hv]
      rw [mem_dedupPages rest seen u t]
      constructor
      · rintro ⟨hu, pre, post, hsplit, hfree⟩
        refine ⟨hu, (v, s) :: pre, post, by rw [hsplit, List.cons_append], ?_⟩
        intro q hq
        rcases List.mem_cons.mp hq with rfl | hq'
        · intro he; apply hu; rw [← he]; exact hv
        · exact hfree q hq'
      · rintro ⟨hu, pre, post, hsplit, hfree⟩
        cases pre with
        | nil =>
          simp only [List.nil_append] at hsplit
          injection hsplit with h1 h2
          injection h1 with hv1 hs1
          exact absurd (hv1 ▸ hv) hu
        | cons q pre' =>
          simp only [List.cons_append] at hsplit
          injection hsplit with h1 h2
          subst h1
          exact ⟨hu, pre', post, h2,
            fun q' hq' => hfree q' (List.mem_cons_of_mem _ hq')⟩
    · simp only [dedupPages, if_neg hv]
      rw [List.mem_cons, mem_dedupPages rest (v :: seen) u t]
      constructor
      · rintro (heq | ⟨hu, pre, post, hsplit, hfree⟩)
        · injection heq with h1 h2
          subst h1; subst h2
          exact ⟨hv, [], rest, rfl, by simp⟩
        · have hune : u ∉ seen := fun hx => hu (List.mem_cons_of_mem _ hx)
          have hvu : v ≠ u := fun he => hu (he ▸ List.mem_cons_self v seen)
          refine ⟨hune, (v, s) :: pre, post, by rw [hsplit, List.cons_append], ?_⟩
          intro q hq
          rcases List.mem_cons.mp hq with rfl | hq'
          · exact hvu
          · exact hfree q hq'
      · rintro ⟨hu, pre, post, hsplit, hfree⟩
        cases pre with
        | nil =>
          simp only [List.nil_append] at hsplit
          injection hsplit with h1 h2
          exact Or.inl h1.symm
        | cons q pre' =>
          simp only [List.cons_append] at hsplit
          injection hsplit with h1 h2
          subst h1
          right
          refine ⟨?_, pre', post, h2,
            fun q' hq' => hfree q' (List.mem_cons_of_mem _ hq')⟩
          intro hx
          rcases List.mem_cons.mp hx with he | hx'
          · exact hfree (v, s) (List.mem_cons_self _ _) he.symm
          · exact hu hx'

/-- De-duplication only removes pairs, in place: the result is a
sublist of the input, so first-seen order is preserved. -/
theorem dedupPages_sublist :
    ∀ (pairs : List (String × String)) (seen : List String),
      List.Sublist (dedupPages seen pairs) pairs
  | [], _ => by simp [dedupPages]
  | (v, s) :: rest, seen => by
    by_cases hv : v ∈ seen
    · simp only [dedupPages, if_pos hv]
      exact List.Sublist.cons _ (dedupPages_sublist rest seen)
    · simp only [dedupPages, if_neg hv]
      exact List.Sublist.cons₂ _ (dedupPages_sublist rest (v :: seen))

/-- The URLs of the de-duplicated list are distinct and disjoint from
the seen set. -/
theorem dedupPages_nodup :
    ∀ (pairs : List (String × String)) (seen : List String),
      ((dedupPages seen pairs).map Prod.fst).Nodup ∧
        ∀ u ∈ (dedupPages seen pairs).map Prod.fst, u ∉ seen
  | [], seen => by simp [dedupPages]
  | (v, s) :: rest, seen => by
    by_cases hv : v ∈ seen
    · simp only [dedupPages, if_pos hv]
      exact dedupPages_nodup rest seen
    · obtain ⟨ih1, ih2⟩ := dedupPages_nodup rest (v :: seen)
      simp only [dedupPages, if_neg hv, List.map_cons]
      constructor
      · rw [List.nodup_cons]
        refine ⟨?_, ih1⟩
        intro hx
        exact (ih2 v hx) (List.mem_cons_self v seen)
      · intro u hu
        rcases List.mem_cons.mp hu with rfl | hu'
        · exact hv
        · intro hx
          exact ih2 u hu' (List.mem_cons_of_mem _ hx)

/-- C8: the de-duplicated exhibit list contains exactly the first
occurrence of each distinct URL — a pair is in the output iff it heads
the first occurrence of its URL in the input — the output is a sublist
of the input (original order), and its URLs are pairwise distinct, so a
later pair with an already-seen URL is dropped with its title. -/
theorem c8_dedup_first_occurrence (pairs : List (String × String)) :
    (∀ u t : String,
        (u, t) ∈ dedupPages [] pairs ↔
          ∃ pre post, pairs = pre ++ (u, t) :: post ∧ ∀ q ∈ pre, q.1 ≠ u)
    ∧ List.Sublist (dedupPages [] pairs) pairs
    ∧ ((dedupPages [] pairs).map Prod.fst).Nodup := by
  refine ⟨?_, dedupPages_sublist pairs [], (dedupPages_nodup pairs []).1⟩
  intro u t
  rw [mem_dedupPages pairs [] u t]
  simp

/-! ### The loop invariants of main -/

/-- One step never loses seen URLs: the seen set only grows. -/
theorem stepExhibit_seen_mono (w : World) (seen : List String)
    (item : String × String) (u : String) (hu : u ∈ seen) :
    u ∈ (stepExhibit w seen item).1 := by
  unfold stepExhibit
  split
  · exact hu
  · exact hu
  · split
    · exact hu
    · split
      · exact hu
      · split <;> exact List.mem_cons_of_mem _ hu

/-- Each step either invokes no download and leaves the seen set
unchanged, or invokes download on exactly one URL not yet seen and
pushes it onto the seen set first. -/
theorem stepExhibit_cases (w : World) (seen : List String)
    (item : String × String) :
    ((stepExhibit w seen item).1 = seen ∧ (stepExhibit w seen item).2.2 = []) ∨
      ∃ p, p ∉ seen ∧ (stepExhibit w seen item).1 = p :: seen ∧
        (stepExhibit w seen item).2.2 = [p] := by
  unfold stepExhibit
  split
  · exact Or.inl ⟨rfl, rfl⟩
  · exact Or.inl ⟨rfl, rfl⟩
  · split
    · exact Or.inl ⟨rfl, rfl⟩
    · rename_i pdf hpick
      split
      · exact Or.inl ⟨rfl, rfl⟩
      · rename_i hnotmem
        split <;> exact Or.inr ⟨pdf, hnotmem, rfl, rfl⟩

/-- The loop invariant: the seen set grows monotonically across the
whole loop, the URLs on which download is invoked are pairwise
distinct, and none of them was seen before the loop started. -/
theorem runLoop_invariant (w : World) :
    ∀ (seen : List String) (items : List (String × String)),
      (∀ u ∈ seen, u ∈ (runLoop w seen items).1) ∧
        (runLoop w seen items).2.2.Nodup ∧
        ∀ u ∈ (runLoop w seen items).2.2, u ∉ seen
  | seen, [] => by simp [runLoop]
  | seen, item :: rest => by
    obtain ⟨ih1, ih2, ih3⟩ := runLoop_invariant w (stepExhibit w seen item).1 rest
    rcases stepExhibit_cases w seen item with ⟨hs, hc⟩ | ⟨p, hp, hs, hc⟩
    · rw [hs] at ih1 ih2 ih3
      refine ⟨?_, ?_, ?_⟩
      · intro u hu
        simp only [runLoop]
        rw [hs]
        exact ih1 u hu
      · simp only [runLoop]
        rw [hs, hc]
        simpa using ih2
      · intro u hu
        simp only [runLoop] at hu
        rw [hs, hc] at hu
        simp only [List.nil_append] at hu
        exact ih3 u hu
    · rw [hs] at ih1 ih2 ih3
      refine ⟨?_, ?_, ?_⟩
      · intro u hu
        simp only [runLoop]
        rw [hs]
        exact ih1 u (List.mem_cons_of_mem _ hu)
      · simp only [runLoop]
        rw [hs, hc]
        simp only [List.singleton_append, List.nodup_cons]
        refine ⟨?_, ih2⟩
        intro hx
        exact ih3 p hx (List.mem_cons_self _ _)
      · intro u hu
        simp only [runLoop] at hu
        rw [hs, hc] at hu
        simp only [List.singleton_append, List.mem_cons] at hu
        rcases hu with rfl | hu'
        · exact hp
        · intro hx
          exact ih3 u hu' (List.mem_cons_of_mem _ hx)

/-- The loop emits exactly one log event per exhibit item. -/
theorem runLoop_length (w : World) :
    ∀ (seen : List String) (items : List (String × String)),
      (runLoop w seen items).2.1.length = items.length
  | _, [] => rfl
  | seen, item :: rest => by
    simp [runLoop, runLoop_length w (stepExhibit w seen item).1 rest]

/-! ### Demonstration run used by the loop witnesses -/

/-- A small root page: two qualifying anchors, each followed by the
marker text. -/
def rootDoc : List Node :=
  [Node.tag "a" [("href", "/BCG-E8726A/ex1")] "Exhibit 1",
   Node.str "Adobe Acrobat PDF",
   Node.tag "a" [("href", "/BCG-E8726A/ex2")] "Exhibit 2",
   Node.str "Adobe Acrobat PDF"]

/-- An exhibit page with one direct .pdf anchor. -/
def exDoc : List Node := [Node.tag "a" [("href", "report.pdf")] "report"]

/-- A world whose two exhibit pages resolve to the same PDF URL. -/
def wRun : World where
  normalize := id
  rootFetch := Except.ok rootDoc
  fetchEx := fun _ => Except.ok exDoc
  join := fun _ h => "https://fccid.io" ++ h
  headResult := fun _ => HeadResult.exn
  fexists := fun _ => false
  fsize := fun _ => 0
  transfer := fun _ => Except.ok 5

/-- C5: every per-exhibit error is caught inside the loop — the run
produces a normal result with exactly one log event per exhibit
whenever the root fetch succeeds, no matter what the per-item oracles
return — and the run fails exactly when the initial root-page fetch
fails, with that same error propagated. -/
theorem c5_error_isolation :
    (∀ (w : World) (e : Err), w.rootFetch = Except.error e →
        mainRun w = Except.error e)
    ∧ (∀ (w : World) (e : Err), mainRun w = Except.error e →
        w.rootFetch = Except.error e)
    ∧ ∀ (w : World) (doc : List Node), w.rootFetch = Except.ok doc →
        mainRun w = Except.ok ((runLoop w [] (exhibitPages w doc)).2.1,
                               (runLoop w [] (exhibitPages w doc)).2.2)
        ∧ (runLoop w [] (exhibitPages w doc)).2.1.length
            = (exhibitPages w doc).length := by
  refine ⟨?_, ?_, ?_⟩
  · intro w e he
    unfold mainRun
    rw [he]
  · intro w e he
    cases hr : w.rootFetch with
    | error e' =>
      unfold mainRun at he
      rw [hr] at he
      injection he with h
      rw [h]
    | ok doc =>
      unfold mainRun at he
      rw [hr] at he
      cases he
  · intro w doc hr
    constructor
    · unfold mainRun
      rw [hr]
    · exact runLoop_length w [] (exhibitPages w doc)

theorem c5_witness :
    mainRun wRun = Except.ok ((runLoop wRun [] (exhibitPages wRun rootDoc)).2.1,
                              (runLoop wRun [] (exhibitPages wRun rootDoc)).2.2)
    ∧ (runLoop wRun [] (exhibitPages wRun rootDoc)).2.1.length
        = (exhibitPages wRun rootDoc).length :=
  c5_error_isolation.2.2 wRun rootDoc rfl

/-- C9: the seen set of resolved PDF URLs grows monotonically through
the run, download is invoked at most once per distinct resolved URL
(the invocation list of a full run has no duplicates), and an exhibit
whose resolved PDF URL was already handled produces only a duplicate
log event, with no download attempt. -/
theorem c9_download_once :
    (∀ (w : World) (seen : List String) (items : List (String × String)),
        ∀ u ∈ seen, u ∈ (runLoop w seen items).1)
    ∧ (∀ (w : World) (items : List (String × String)),
        (runLoop w [] items).2.2.Nodup)
    ∧ ∀ (w : World) (seen : List String) (item : String × String)
        (doc : List Node) (pdf : String),
        w.fetchEx item.1 = Except.ok doc →
        pick_pdf_from_exhibit (w.join item.1) doc = some pdf →
        pdf ∈ seen →
        stepExhibit w seen item = (seen, Event.dupPdf pdf, []) := by
  refine ⟨fun w seen items => (runLoop_invariant w seen items).1,
          fun w items => (runLoop_invariant w [] items).2.1, ?_⟩
  intro w seen item doc pdf hfetch hpick hmem
  unfold stepExhibit
  simp only [hfetch, hpick]
  rw [if_pos hmem]

theorem c9_witness :
    stepExhibit wRun ["https://fccid.ioreport.pdf"] ("e", "t") =
      (["https://fccid.ioreport.pdf"],
       Event.dupPdf "https://fccid.ioreport.pdf", []) :=
  c9_download_once.2.2 wRun ["https://fccid.ioreport.pdf"] ("e", "t") exDoc
    "https://fccid.ioreport.pdf" rfl (by decide) (by decide)

/-! ### Slug safety (C7) -/

/-- Every character emitted by the whitespace collapse is either the
underscore it substitutes for a run, or a non-whitespace character of
the input. -/
theorem mem_collapseWs :
    ∀ (cs : List Char) (b : Bool) (c : Char), c ∈ collapseWs cs b →
      c = '_' ∨ (c ∈ cs ∧ isPySpace c = false)
  | [], _, c, h => absurd h (List.not_mem_nil c)
  | x :: rest, b, c, h => by
    unfold collapseWs at h
    by_cases hx : isPySpace x = true
    · rw [if_pos hx] at h
      cases b with
      | true =>
        simp at h
        rcases mem_collapseWs rest true c h with h1 | ⟨h2, h3⟩
        · exact Or.inl h1
        · exact Or.inr ⟨List.mem_cons_of_mem _ h2, h3⟩
      | false =>
        simp at h
        rcases h with rfl | h'
        · exact Or.inl rfl
        · rcases mem_collapseWs rest true c h' with h1 | ⟨h2, h3⟩
          · exact Or.inl h1
          · exact Or.inr ⟨List.mem_cons_of_mem _ h2, h3⟩
    · rw [if_neg hx] at h
      rcases List.mem_cons.mp h with rfl | h'
      · exact Or.inr ⟨List.mem_cons_self _ _, by simpa using hx⟩
      · rcases mem_collapseWs rest false c h' with h1 | ⟨h2, h3⟩
        · exact Or.inl h1
        · exact Or.inr ⟨List.mem_cons_of_mem _ h2, h3⟩

/-- Stripping whitespace from both ends only removes elements. -/
theorem mem_strip_subset (p : Char → Bool) (l : List Char) :
    ∀ c ∈ ((l.dropWhile p).reverse.dropWhile p).reverse, c ∈ l := by
  intro c hc
  rw [List.mem_reverse] at hc
  have h1 := List.dropWhile_subset (l := (l.dropWhile p).reverse) p hc
  rw [List.mem_reverse] at h1
  exact List.dropWhile_subset p h1

/-- C7: for every input title and every normalisation function, the
slug consists only of ASCII word characters, dots and hyphens (in
particular no whitespace and no path separator), is at most 140
characters long, is never empty, and is the literal "exhibit" whenever
the normalisation pipeline leaves nothing. -/
theorem c7_slugify_safe (normalize : String → String) (s : String) :
    (∀ c ∈ (slugify normalize s).toList,
        (isPyWord c || c == '.' || c == '-') = true ∧
          isPySpace c = false ∧ c ≠ '/')
    ∧ (slugify normalize s).toList.length ≤ 140
    ∧ slugify normalize s ≠ ""
    ∧ (slugCore normalize s = [] → slugify normalize s = "exhibit") := by
  have hcore : ∀ c ∈ slugCore normalize s,
      (isPyWord c || c == '.' || c == '-') = true ∧
        isPySpace c = false ∧ c ≠ '/' := by
    intro c hc
    unfold slugCore at hc
    rcases mem_collapseWs _ false c hc with rfl | ⟨h2, h3⟩
    · exact ⟨by decide, by decide, by decide⟩
    · have h4 := mem_strip_subset isPySpace _ c h2
      have h5 := (List.mem_filter.mp h4).2
      simp only [Bool.or_eq_true] at h5
      have hword : (isPyWord c || c == '.' || c == '-') = true := by
        rcases h5 with ((hw | hs) | hd) | hh
        · simp [hw]
        · rw [hs] at h3; cases h3
        · simp [hd]
        · simp [hh]
      refine ⟨hword, h3, ?_⟩
      rintro rfl
      exact absurd hword (by decide)
  have hlist : (slugify normalize s).toList =
      (if slugCore normalize s = [] then "exhibit".toList
       else slugCore normalize s).take 140 := rfl
  refine ⟨?_, ?_, ?_, ?_⟩
  · intro c hc
    rw [hlist] at hc
    have hc' := List.take_subset 140 _ hc
    by_cases h0 : slugCore normalize s = []
    · rw [if_pos h0] at hc'
      have hx : ∀ x ∈ "exhibit".toList,
          (isPyWord x || x == '.' || x == '-') = true ∧
            isPySpace x = false ∧ x ≠ '/' := by decide
      exact hx c hc' 
    · rw [if_neg h0] at hc'
      exact hcore c hc'
  · rw [hlist, List.length_take]
    exact min_le_left _ _
  · intro heq
    have h1 : (slugify normalize s).toList = [] := by rw [heq]; rfl
    rw [hlist] at h1
    rcases List.take_eq_nil_iff.mp h1 with h2 | h2
    · cases h2
    · by_cases h0 : slugCore normalize s = []
      · rw [if_pos h0] at h2
        cases h2
      · rw [if_neg h0] at h2
        exact h0 h2
  · intro h0
    unfold slugify
    rw [if_pos h0]
    decide

theorem c7_witness :
    slugify id "Exhibit #1: RF Test/Report" ≠ "" ∧
      (slugify id "Exhibit #1: RF Test/Report").toList.length ≤ 140 :=
  ⟨(c7_slugify_safe id "Exhibit #1: RF Test/Report").2.2.1,
   (c7_slugify_safe id "Exhibit #1: RF Test/Report").2.1⟩

/-! ### Doc-id extraction (C6) -/

theorem toList_append (a b : String) : (a ++ b).toList = a.toList ++ b.toList := by
  cases a; cases b; rfl

/-- A list always passes the suffix test against itself appended. -/
theorem endsWithL_append (pat y : List Char) : endsWithL pat (y ++ pat) = true := by
  unfold endsWithL
  rw [List.length_append, Nat.add_sub_cancel, List.drop_left]
  exact beq_self_eq_true pat

/-- takeWhile walks through a block that satisfies the predicate. -/
theorem takeWhile_all_append (p : Char → Bool) :
    ∀ (xs ys : List Char), (∀ x ∈ xs, p x = true) →
      (xs ++ ys).takeWhile p = xs ++ ys.takeWhile p
  | [], ys, _ => rfl
  | x :: xs, ys, h => by
    have hx : p x = true := h x (List.mem_cons_self _ _)
    simp only [List.cons_append, List.takeWhile_cons, hx, if_true]
    rw [takeWhile_all_append p xs ys (fun y hy => h y (List.mem_cons_of_mem _ hy))]

/-- The anchored DOCID_RE search on a string of the shape
stem ++ "-" ++ digits ++ ".pdf" always captures exactly the digits. -/
theorem docIdNearPdf_concat (sL dL : List Char) (hne : dL ≠ [])
    (hdig : ∀ c ∈ dL, c.isDigit = true) :
    docIdNearPdf (((sL ++ ['-']) ++ dL) ++ pdfExt) = some dL := by
  have hlast : ((((sL ++ ['-']) ++ dL) ++ pdfExt).getLast?) = some 'f' := by
    rw [List.getLast?_append]; rfl
  have hbase : docIdBase (((sL ++ ['-']) ++ dL) ++ pdfExt) =
      ((sL ++ ['-']) ++ dL) ++ pdfExt := by
    unfold docIdBase
    rw [if_neg]
    rw [hlast]
    decide
  have hlow : lowerL ((((sL ++ ['-']) ++ dL) ++ pdfExt)) =
      lowerL ((sL ++ ['-']) ++ dL) ++ pdfExt := by
    unfold lowerL
    rw [List.map_append]
    rfl
  have hends : endsWithL pdfExt (lowerL ((((sL ++ ['-']) ++ dL) ++ pdfExt))) = true := by
    rw [hlow]; exact endsWithL_append pdfExt _
  have hstem : stemBeforePdf ((((sL ++ ['-']) ++ dL) ++ pdfExt)) = (sL ++ ['-']) ++ dL := by
    unfold stemBeforePdf
    rw [List.length_append]
    show (((sL ++ ['-']) ++ dL) ++ pdfExt).take (((sL ++ ['-']) ++ dL).length + 4 - 4) =
      (sL ++ ['-']) ++ dL
    rw [Nat.add_sub_cancel]
    exact List.take_left _ _
  have hrev : (((sL ++ ['-']) ++ dL).reverse) = dL.reverse ++ ('-' :: sL.reverse) := by
    rw [List.reverse_append, List.reverse_append]
    rfl
  have hrun : docIdRun ((((sL ++ ['-']) ++ dL) ++ pdfExt)) = dL.reverse := by
    unfold docIdRun
    rw [hstem, hrev]
    rw [takeWhile_all_append Char.isDigit dL.reverse ('-' :: sL.reverse)
          (fun x hx => hdig x (List.mem_reverse.mp hx))]
    rw [List.takeWhile_cons_of_neg (by decide)]
    rw [List.append_nil]
  unfold docIdNearPdf
  rw [hbase, hends, if_pos rfl, hrun, hstem, hrev]
  rw [if_pos]
  · rw [List.reverse_reverse]
  · constructor
    · simpa using hne
    · rw [List.drop_left]
      rfl

/-- C6: doc-id extraction returns the digit run preceding ".pdf" when
the anchored pattern matches — for every stem and every nonempty digit
string — with the claim's two concrete examples; when the pattern does
not match it falls back to the trailing digits of the URL path's
basename with the extension stripped (or the empty string); and an
empty doc-id makes the filename omit the id suffix entirely. -/
theorem c6_doc_id_extraction :
    (∀ stem d : String, d.toList ≠ [] → (∀ c ∈ d.toList, c.isDigit = true) →
        extract_doc_id (stem ++ "-" ++ d ++ ".pdf") = d)
    ∧ extract_doc_id "https://fccid.io/files/foo-8024702.pdf" = "8024702"
    ∧ extract_doc_id "https://fccid.io/files/foo.pdf" = ""
    ∧ (∀ url : String, docIdNearPdf url.toList = none →
        extract_doc_id url =
          (match trailingDigitRun (splitextRoot (basenameL (urlparse_path url).toList)) with
           | some run => String.mk run
           | none => ""))
    ∧ ∀ (normalize : String → String) (url title : String),
        extract_doc_id url = "" →
          downloadFilename normalize url title = slugify normalize title ++ ".pdf" := by
  refine ⟨?_, by decide, by decide, ?_, ?_⟩
  · intro stem d hne hdig
    have h1 : (stem ++ "-" ++ d ++ ".pdf").toList =
        ((stem.toList ++ ['-']) ++ d.toList) ++ pdfExt := by
      rw [toList_append, toList_append, toList_append]
      rfl
    unfold extract_doc_id
    rw [h1, docIdNearPdf_concat stem.toList d.toList hne hdig]
    rfl
  · intro url h
    unfold extract_doc_id
    rw [h]
  · intro normalize url title h
    simp only [downloadFilename]
    rw [h]
    simp

theorem c6_witness :
    extract_doc_id ("https://x.io/files/rpt" ++ "-" ++ "5551212" ++ ".pdf") = "5551212" :=
  c6_doc_id_extraction.1 "https://x.io/files/rpt" "5551212" (by decide) (by decide)

end FCC
